import Mathlib

set_option autoImplicit false

namespace Tetris

/-- Identifiers (model names, pod names, tensor ids) are Python strings,
embedded as lists of characters. -/
abbrev Str := List Char

/-- Boolean test that `n` is a leading segment of `h`; building block of the
Python substring test `model in pod` used by `is_running`. -/
def leadsWith : Str → Str → Bool
  | [], _ => true
  | _ :: _, [] => false
  | a :: as, b :: bs => a == b && leadsWith as bs

/-- Python substring containment `n in h`, over character lists. -/
def strIn : Str → Str → Bool
  | n, [] => n.isEmpty
  | n, c :: t => leadsWith n (c :: t) || strIn n t

/-- Embeds `is_running` (collector.py lines 35-39): a model is running iff its
name occurs as a substring of some running pod name. -/
def is_running (model : Str) (pods : List Str) : Bool :=
  pods.any (fun p => strIn model p)

/-- Python set union, on lists viewed as finite sets of strings. -/
def setUnion (a b : List Str) : List Str :=
  a ++ b.filter (fun x => !(decide (x ∈ a)))

/-- Embeds line 74 of `node_collector`: the models with a matching running
pod. A model is a pair of its name and its tensor set (`model_tensors`). -/
def runningModels (models : List (Str × List Str)) (pods : List Str) :
    List (Str × List Str) :=
  models.filter (fun m => is_running m.1 pods)

/-- Embeds lines 75-77 of `node_collector`: `running_tensor_set`, the union of
the tensor sets of all running models (the live set). -/
def runningTensorSet (models : List (Str × List Str)) (pods : List Str) :
    List Str :=
  (runningModels models pods).foldl (fun acc m => setUnion acc m.2) []

/-- The keep-alive dictionary `keep_alive_dict`: tensor id to the timestamp at
which it was first seen unused. Timestamps are naturals. -/
abbrev KAD := List (Str × Nat)

/-- Lookup in the keep-alive dictionary (Python `t in keep_alive_dict` /
`keep_alive_dict[t]`). -/
def kadLookup : KAD → Str → Option Nat
  | [], _ => none
  | (k, v) :: rest, t => if k = t then some v else kadLookup rest t

/-- Embeds `get_expired_tensor` (collector.py lines 41-49). The Python set
`delete_tensor_set` is given as a list in its iteration order; `now` stands
for `datetime.datetime.now()` and `G` for `timedelta(minutes=KEEP_ALIVE)`.
Returns the expired set together with the updated dictionary: a tensor with
an entry is expired when its timestamp plus `G` is at most `now`; a tensor
without an entry gets one with timestamp `now` and is not expired. -/
def get_expired_tensor (now G : Nat) : List Str → KAD → List Str × KAD
  | [], kad => ([], kad)
  | t :: ds, kad =>
    match kadLookup kad t with
    | some ts =>
      let r := get_expired_tensor now G ds kad
      if ts + G ≤ now then (t :: r.1, r.2) else r
    | none => get_expired_tensor now G ds ((t, now) :: kad)

/-- Observable filesystem actions of the evictor, in program order:
opening the lock file, `fcntl.lockf(f, LOCK_EX)`, `os.remove(memory_file)`,
`fcntl.lockf(f, LOCK_UN)`. -/
inductive Ev where
  | openLock : Str → Ev
  | lockEx : Str → Ev
  | removeMem : Str → Ev
  | unlock : Str → Ev
deriving DecidableEq

/-- The parts of the filesystem the evictor touches: the set of lock files
present under LOCK_PATH and the set of cache files present under
MEMORY_PATH, keyed by tensor id. -/
structure FS where
  lock : List Str
  mem : List Str
deriving DecidableEq

/-- Embeds one iteration of the loop of `delete_tensors` (lines 53-60) for a
single tensor: when both the lock file and the memory file exist, the code
opens the lock file, takes the exclusive lock, removes the memory file and
unlocks; otherwise it does nothing. Returns the new filesystem and the
emitted event trace. -/
def evictOne (fs : FS) (t : Str) : FS × List Ev :=
  if t ∈ fs.lock ∧ t ∈ fs.mem then
    (⟨fs.lock, fs.mem.erase t⟩,
      [Ev.openLock t, Ev.lockEx t, Ev.removeMem t, Ev.unlock t])
  else (fs, [])

/-- Embeds `delete_tensors` (collector.py lines 52-60), iterating over the
expired set in its iteration order. -/
def delete_tensors (fs : FS) : List Str → FS × List Ev
  | [] => (fs, [])
  | t :: ts =>
    let r := evictOne fs t
    let rest := delete_tensors r.1 ts
    (rest.1, r.2 ++ rest.2)

/-- The per-cycle inputs of one iteration of the `node_collector` loop: the
model catalog, the pod-name snapshot, the lock- and cache-directory
snapshots, the current time, and the grace period. -/
structure Step where
  models : List (Str × List Str)
  pods : List Str
  lock : List Str
  mem : List Str
  now : Nat
  G : Nat

/-- The live set of a cycle, `running_tensor_set` of lines 74-77. -/
def liveSet (s : Step) : List Str :=
  runningTensorSet s.models s.pods

/-- Embeds line 79: `delete_tensor_set = existing_tensor_set.difference
(running_tensor_set)`. -/
def staleSet (s : Step) : List Str :=
  s.mem.filter (fun t => !(decide (t ∈ liveSet s)))

/-- Result of one cycle: the updated keep-alive dictionary, the cache
directory after deletions, the set handed to the evictor, and the evictor's
event trace. -/
structure CycleOut where
  kad : KAD
  memAfter : List Str
  expired : List Str
  evs : List Ev

/-- Embeds one iteration of the while-loop of `node_collector`
(collector.py lines 71-81). -/
def cycle (s : Step) (kad : KAD) : CycleOut :=
  let r := get_expired_tensor s.now s.G (staleSet s) kad
  let d := delete_tensors ⟨s.lock, s.mem⟩ r.1
  ⟨r.2, d.1.mem, r.1, d.2⟩

/-- Iterates the loop over a list of per-cycle inputs, threading the
keep-alive dictionary (the only state `node_collector` keeps across
cycles; the directory snapshots are re-read each cycle). -/
def runCycles : List Step → KAD → KAD
  | [], kad => kad
  | s :: ss, kad => runCycles ss (cycle s kad).kad

/-- Per-cycle inputs when the cache directory may be unreadable: `memDir` is
`none` when `os.listdir(MEMORY_PATH)` raises. -/
structure StepE where
  models : List (Str × List Str)
  pods : List Str
  lock : List Str
  memDir : Option (List Str)
  now : Nat
  G : Nat

/-- Embeds `get_existing_tensors` (collector.py lines 28-33):
`os.listdir(MEMORY_PATH)` raises `OSError` when the directory cannot be
read, and the function body has no try/except, so the exception escapes. -/
def get_existing_tensors (memDir : Option (List Str)) :
    Except Unit (List Str) :=
  match memDir with
  | none => Except.error ()
  | some l => Except.ok l

/-- Specializes a `StepE` to a `Step` once the directory listing succeeded. -/
def StepE.toStep (s : StepE) (mem : List Str) : Step :=
  ⟨s.models, s.pods, s.lock, mem, s.now, s.G⟩

/-- One loop iteration of `node_collector` with the directory listing able to
raise: the loop body has no try/except, so the exception propagates out of
the iteration. -/
def cycleE (s : StepE) (kad : KAD) : Except Unit CycleOut :=
  match get_existing_tensors s.memDir with
  | Except.error e => Except.error e
  | Except.ok mem => Except.ok (cycle (s.toStep mem) kad)

/-- The while-loop of `node_collector` with raising directory reads: an
uncaught exception terminates the loop (and the process). -/
def runCyclesE : List StepE → KAD → Except Unit KAD
  | [], kad => Except.ok kad
  | s :: ss, kad =>
    match cycleE s kad with
    | Except.error e => Except.error e
    | Except.ok out => runCyclesE ss out.kad

/-- Variant of `delete_tensors` in which `os.remove` raises for the tensors
in `bad` (e.g. a transient I/O error): the loop has no try/except, so the
first exception aborts the remaining iterations. -/
def delete_tensorsE (bad : List Str) (fs : FS) :
    List Str → Except Unit (FS × List Ev)
  | [] => Except.ok (fs, [])
  | t :: ts =>
    if t ∈ fs.lock ∧ t ∈ fs.mem then
      if t ∈ bad then Except.error ()
      else
        match delete_tensorsE bad ⟨fs.lock, fs.mem.erase t⟩ ts with
        | Except.error e => Except.error e
        | Except.ok r =>
          Except.ok (r.1,
            [Ev.openLock t, Ev.lockEx t, Ev.removeMem t, Ev.unlock t] ++ r.2)
    else delete_tensorsE bad fs ts

/-- Scenario A of the spec: models `m1 -> a, b` and `m2 -> b, c`. -/
def modelsA : List (Str × List Str) :=
  [ ("m1".toList, [ "a".toList, "b".toList ]),
    ("m2".toList, [ "b".toList, "c".toList ]) ]

/-- Scenario A of the spec: running workloads `pod-m1-xyz`, cache
`a, b, c, d`. -/
def stepA : Step :=
  ⟨modelsA, [ "pod-m1-xyz".toList ], [],
    [ "a".toList, "b".toList, "c".toList, "d".toList ], 0, 60⟩

/-- Concrete cycle input: no model is running, tensor `a` is cached with no
lock artifact, and `a` has been tracked unused since time 0. -/
def stepB : Step :=
  ⟨[], [], [], [ "a".toList ], 100, 60⟩

/-- Keep-alive dictionary tracking tensor `a` since time 0. -/
def kadB : KAD :=
  [ ("a".toList, 0) ]

/-- Concrete follow-up cycle input for `stepB`, one cycle later. -/
def stepB2 : Step :=
  ⟨[], [], [], [ "a".toList ], 200, 60⟩

/-- Concrete cycle input: model `m1` is running, so its tensor `a` is live
and cached while being tracked in the keep-alive dictionary. -/
def stepC1 : Step :=
  ⟨modelsA, [ "pod-m1-xyz".toList ], [], [ "a".toList ], 100, 60⟩

/-- Keep-alive dictionary tracking the live tensor `a` since time 0. -/
def kadC1 : KAD :=
  [ ("a".toList, 0) ]

/-- Concrete cycle input: tensor `a` is cached with a lock artifact, no model
is running, and the grace period has long expired. -/
def stepC4 : Step :=
  ⟨[], [], [ "a".toList ], [ "a".toList ], 100, 60⟩

/-- Keep-alive dictionary tracking tensor `a` since time 0. -/
def kadC4 : KAD :=
  [ ("a".toList, 0) ]

/-- Concrete cycle input with an empty cache directory. -/
def stepPr : Step :=
  ⟨[], [], [], [], 100, 60⟩

/-- Keep-alive dictionary tracking tensor `b`, which is no longer cached. -/
def kadPr : KAD :=
  [ ("b".toList, 0) ]

/-- Concrete cycle input whose cache-directory listing raises. -/
def stepC8 : StepE :=
  ⟨[], [], [], none, 0, 60⟩

/-- Concrete filesystem: tensor `a` has both its lock file and its cache
file. -/
def fsW : FS :=
  ⟨[ "a".toList ], [ "a".toList ]⟩

/-- Concrete filesystem: tensor `a` has a lock file but its cache file is
absent. -/
def fsLockOnly : FS :=
  ⟨[ "a".toList ], []⟩

/-- Concrete filesystem: tensors `a` and `b` both have lock and cache
files. -/
def fsW2 : FS :=
  ⟨[ "a".toList, "b".toList ], [ "a".toList, "b".toList ]⟩

/-- Tensors whose `os.remove` raises in the erroring evictor variant. -/
def badW : List Str :=
  [ "a".toList ]

/-- Eviction list containing `a` then `b`. -/
def listW : List Str :=
  [ "a".toList, "b".toList ]

/-! Helper lemmas about the substring test. -/

theorem leadsWith_iff (n h : Str) :
    leadsWith n h = true ↔ ∃ r, h = n ++ r := by
  induction n generalizing h with
  | nil =>
    simp [leadsWith]
  | cons a as ih =>
    cases h with
    | nil =>
      simp [leadsWith]
    | cons b bs =>
      simp only [leadsWith, Bool.and_eq_true, beq_iff_eq, ih, List.cons_append,
        List.cons.injEq]
      constructor
      · rintro ⟨rfl, r, rfl⟩
        exact ⟨r, rfl, rfl⟩
      · rintro ⟨r, rfl, rfl⟩
        exact ⟨rfl, r, rfl⟩

theorem strIn_iff (n h : Str) :
    strIn n h = true ↔ ∃ pre post, h = pre ++ n ++ post := by
  induction h with
  | nil =>
    simp only [strIn, List.isEmpty_iff]
    constructor
    · rintro rfl
      exact ⟨[], [], rfl⟩
    · rintro ⟨pre, post, hp⟩
      rcases List.append_eq_nil.mp (List.append_eq_nil.mp hp.symm).1 with ⟨-, h2⟩
      exact h2
  | cons c t ih =>
    simp only [strIn, Bool.or_eq_true, leadsWith_iff, ih]
    constructor
    · rintro (⟨r, hr⟩ | ⟨pre, post, rfl⟩)
      · exact ⟨[], r, by simp [hr]⟩
      · exact ⟨c :: pre, post, rfl⟩
    · rintro ⟨pre, post, hp⟩
      cases pre with
      | nil =>
        exact Or.inl ⟨post, by simpa using hp⟩
      | cons x xs =>
        rcases hp with hp
        simp only [List.cons_append, List.cons.injEq] at hp
        exact Or.inr ⟨xs, post, hp.2⟩

theorem mem_setUnion (x : Str) (a b : List Str) :
    x ∈ setUnion a b ↔ x ∈ a ∨ x ∈ b := by
  simp only [setUnion, List.mem_append, List.mem_filter, Bool.not_eq_eq_eq_not,
    Bool.not_true, decide_eq_false_iff_not]
  by_cases hx : x ∈ a <;> simp [hx]

theorem mem_foldl_setUnion (t : Str) (l : List (Str × List Str))
    (acc : List Str) :
    t ∈ l.foldl (fun acc m => setUnion acc m.2) acc ↔
      t ∈ acc ∨ ∃ m, m ∈ l ∧ t ∈ m.2 := by
  induction l generalizing acc with
  | nil => simp
  | cons m ms ih =>
    simp only [List.foldl_cons, ih, mem_setUnion, List.mem_cons]
    constructor
    · rintro ((h | h) | ⟨u, hu, ht⟩)
      · exact Or.inl h
      · exact Or.inr ⟨m, Or.inl rfl, h⟩
      · exact Or.inr ⟨u, Or.inr hu, ht⟩
    · rintro (h | ⟨u, (rfl | hu), ht⟩)
      · exact Or.inl (Or.inl h)
      · exact Or.inl (Or.inr ht)
      · exact Or.inr ⟨u, hu, ht⟩

theorem mem_runningTensorSet (t : Str) (models : List (Str × List Str))
    (pods : List Str) :
    t ∈ runningTensorSet models pods ↔
      ∃ m, m ∈ models ∧ is_running m.1 pods = true ∧ t ∈ m.2 := by
  simp only [runningTensorSet, runningModels, mem_foldl_setUnion,
    List.not_mem_nil, false_or, List.mem_filter]
  constructor
  · rintro ⟨m, ⟨hm, hr⟩, ht⟩
    exact ⟨m, hm, hr, ht⟩
  · rintro ⟨m, hm, hr, ht⟩
    exact ⟨m, ⟨hm, hr⟩, ht⟩

/-! Helper lemmas about `get_expired_tensor`. -/

theorem get_expired_cons_none (now G : Nat) (t : Str) (ds : List Str)
    (kad : KAD) (h : kadLookup kad t = none) :
    get_expired_tensor now G (t :: ds) kad =
      get_expired_tensor now G ds ((t, now) :: kad) := by
  simp [get_expired_tensor, h]

theorem get_expired_cons_old (now G : Nat) (t : Str) (ds : List Str)
    (kad : KAD) (ts : Nat) (h : kadLookup kad t = some ts)
    (hts : ts + G ≤ now) :
    get_expired_tensor now G (t :: ds) kad =
      (t :: (get_expired_tensor now G ds kad).1,
        (get_expired_tensor now G ds kad).2) := by
  simp [get_expired_tensor, h, hts]

theorem get_expired_cons_fresh (now G : Nat) (t : Str) (ds : List Str)
    (kad : KAD) (ts : Nat) (h : kadLookup kad t = some ts)
    (hts : ¬ts + G ≤ now) :
    get_expired_tensor now G (t :: ds) kad =
      get_expired_tensor now G ds kad := by
  simp [get_expired_tensor, h, hts]

theorem mem_expired_subset (now G : Nat) (ds : List Str) (kad : KAD) (t : Str)
    (h : t ∈ (get_expired_tensor now G ds kad).1) : t ∈ ds := by
  induction ds generalizing kad with
  | nil =>
    simp [get_expired_tensor] at h
  | cons u us ih =>
    rcases hu : kadLookup kad u with - | ts
    · rw [get_expired_cons_none now G u us kad hu] at h
      exact List.mem_cons_of_mem u (ih _ h)
    · by_cases hts : ts + G ≤ now
      · rw [get_expired_cons_old now G u us kad ts hu hts] at h
        rcases List.mem_cons.mp h with rfl | h
        · exact List.mem_cons_self t us
        · exact List.mem_cons_of_mem u (ih _ h)
      · rw [get_expired_cons_fresh now G u us kad ts hu hts] at h
        exact List.mem_cons_of_mem u (ih _ h)

theorem kadLookup_expired_preserved (now G : Nat) (ds : List Str) (kad : KAD)
    (u : Str) (ts : Nat) (h : kadLookup kad u = some ts) :
    kadLookup (get_expired_tensor now G ds kad).2 u = some ts := by
  induction ds generalizing kad with
  | nil =>
    simpa [get_expired_tensor] using h
  | cons v vs ih =>
    rcases hv : kadLookup kad v with - | ts₂
    · rw [get_expired_cons_none now G v vs kad hv]
      have hvu : v ≠ u := by
        rintro rfl
        rw [hv] at h
        exact Option.noConfusion h
      refine ih ((v, now) :: kad) ?_
      simpa [kadLookup, hvu] using h
    · by_cases hts : ts₂ + G ≤ now
      · rw [get_expired_cons_old now G v vs kad ts₂ hv hts]
        exact ih kad h
      · rw [get_expired_cons_fresh now G v vs kad ts₂ hv hts]
        exact ih kad h

theorem kadLookup_expired_not_mem (now G : Nat) (ds : List Str) (kad : KAD)
    (u : Str) (h : u ∉ ds) :
    kadLookup (get_expired_tensor now G ds kad).2 u = kadLookup kad u := by
  induction ds generalizing kad with
  | nil =>
    simp [get_expired_tensor]
  | cons v vs ih =>
    have hvu : v ≠ u := by
      rintro rfl
      exact h (List.mem_cons_self v vs)
    have hus : u ∉ vs := fun hu => h (List.mem_cons_of_mem v hu)
    rcases hv : kadLookup kad v with - | ts₂
    · rw [get_expired_cons_none now G v vs kad hv, ih ((v, now) :: kad) hus]
      simp [kadLookup, hvu]
    · by_cases hts : ts₂ + G ≤ now
      · rw [get_expired_cons_old now G v vs kad ts₂ hv hts]
        exact ih kad hus
      · rw [get_expired_cons_fresh now G v vs kad ts₂ hv hts]
        exact ih kad hus

theorem kadLookup_expired_new (now G : Nat) (ds : List Str) (kad : KAD)
    (u : Str) (h : kadLookup kad u = none) :
    kadLookup (get_expired_tensor now G ds kad).2 u =
      if u ∈ ds then some now else none := by
  induction ds generalizing kad with
  | nil =>
    simpa [get_expired_tensor] using h
  | cons v vs ih =>
    rcases hv : kadLookup kad v with - | ts₂
    · rw [get_expired_cons_none now G v vs kad hv]
      by_cases hvu : v = u
      · subst hvu
        have hl : kadLookup ((v, now) :: kad) v = some now := by
          simp [kadLookup]
        rw [kadLookup_expired_preserved now G vs _ v now hl]
        simp
      · have hlk : kadLookup ((v, now) :: kad) u = none := by
          simpa [kadLookup, hvu] using h
        rw [ih _ hlk]
        simp [List.mem_cons, Ne.symm hvu]
    · have hvu : v ≠ u := by
        rintro rfl
        rw [hv] at h
        exact Option.noConfusion h
      have hrec :
          kadLookup (get_expired_tensor now G vs kad).2 u =
            if u ∈ vs then some now else none := ih kad h
      by_cases hts : ts₂ + G ≤ now
      · rw [get_expired_cons_old now G v vs kad ts₂ hv hts, hrec]
        simp [List.mem_cons, Ne.symm hvu]
      · rw [get_expired_cons_fresh now G v vs kad ts₂ hv hts, hrec]
        simp [List.mem_cons, Ne.symm hvu]

theorem mem_expired_complete (now G : Nat) (ds : List Str) (kad : KAD)
    (u : Str) (ts : Nat) (hds : u ∈ ds) (hlk : kadLookup kad u = some ts)
    (hts : ts + G ≤ now) : u ∈ (get_expired_tensor now G ds kad).1 := by
  induction ds generalizing kad with
  | nil =>
    exact absurd hds (List.not_mem_nil u)
  | cons v vs ih =>
    rcases List.mem_cons.mp hds with rfl | hds₂
    · rw [get_expired_cons_old now G u vs kad ts hlk hts]
      exact List.mem_cons_self u _
    · rcases hv : kadLookup kad v with - | ts₂
      · have hvu : v ≠ u := by
          rintro rfl
          rw [hv] at hlk
          exact Option.noConfusion hlk
        rw [get_expired_cons_none now G v vs kad hv]
        refine ih ((v, now) :: kad) hds₂ ?_
        simpa [kadLookup, hvu] using hlk
      · by_cases hts₂ : ts₂ + G ≤ now
        · rw [get_expired_cons_old now G v vs kad ts₂ hv hts₂]
          exact List.mem_cons_of_mem v (ih kad hds₂ hlk)
        · rw [get_expired_cons_fresh now G v vs kad ts₂ hv hts₂]
          exact ih kad hds₂ hlk

theorem mem_expired_sound (now G : Nat) (ds : List Str) (kad : KAD)
    (u : Str) (hnd : ds.Nodup) (h : u ∈ (get_expired_tensor now G ds kad).1) :
    ∃ ts, kadLookup kad u = some ts ∧ ts + G ≤ now := by
  induction ds generalizing kad with
  | nil =>
    simp [get_expired_tensor] at h
  | cons v vs ih =>
    have hnd₂ : vs.Nodup := (List.nodup_cons.mp hnd).2
    have hvvs : v ∉ vs := (List.nodup_cons.mp hnd).1
    rcases hv : kadLookup kad v with - | ts₂
    · rw [get_expired_cons_none now G v vs kad hv] at h
      rcases ih ((v, now) :: kad) hnd₂ h with ⟨ts, hts, hle⟩
      have hvu : v ≠ u := by
        rintro rfl
        exact hvvs (mem_expired_subset now G vs _ v h)
      refine ⟨ts, ?_, hle⟩
      simpa [kadLookup, hvu] using hts
    · by_cases hts₂ : ts₂ + G ≤ now
      · rw [get_expired_cons_old now G v vs kad ts₂ hv hts₂] at h
        rcases List.mem_cons.mp h with rfl | h₂
        · exact ⟨ts₂, hv, hts₂⟩
        · exact ih kad hnd₂ h₂
      · rw [get_expired_cons_fresh now G v vs kad ts₂ hv hts₂] at h
        exact ih kad hnd₂ h

/-! Helper lemmas about `delete_tensors`. -/

theorem delete_tensors_lock (fs : FS) (ts : List Str) :
    (delete_tensors fs ts).1.lock = fs.lock := by
  induction ts generalizing fs with
  | nil => rfl
  | cons u us ih =>
    simp only [delete_tensors]
    rw [ih]
    by_cases h : u ∈ fs.lock ∧ u ∈ fs.mem
    · simp [evictOne, h]
    · simp [evictOne, h]

theorem delete_tensors_mem_of_no_lock (fs : FS) (ts : List Str) (t : Str)
    (hl : t ∉ fs.lock) (hm : t ∈ fs.mem) :
    t ∈ (delete_tensors fs ts).1.mem := by
  induction ts generalizing fs with
  | nil => exact hm
  | cons u us ih =>
    simp only [delete_tensors]
    by_cases h : u ∈ fs.lock ∧ u ∈ fs.mem
    · have hut : u ≠ t := by
        rintro rfl
        exact hl h.1
      have he : (evictOne fs u).1 = ⟨fs.lock, fs.mem.erase u⟩ := by
        simp [evictOne, h]
      rw [he]
      refine ih ⟨fs.lock, fs.mem.erase u⟩ hl ?_
      exact (List.mem_erase_of_ne (Ne.symm hut)).mpr hm
    · have he : (evictOne fs u).1 = fs := by
        simp [evictOne, h]
      rw [he]
      exact ih fs hl hm

/-! Projections of `cycle`, by definition. -/

theorem cycle_expired (s : Step) (kad : KAD) :
    (cycle s kad).expired =
      (get_expired_tensor s.now s.G (staleSet s) kad).1 := rfl

theorem cycle_kad (s : Step) (kad : KAD) :
    (cycle s kad).kad =
      (get_expired_tensor s.now s.G (staleSet s) kad).2 := rfl

theorem cycle_memAfter (s : Step) (kad : KAD) :
    (cycle s kad).memAfter =
      (delete_tensors ⟨s.lock, s.mem⟩
        (get_expired_tensor s.now s.G (staleSet s) kad).1).1.mem := rfl

/-! Claim theorems. -/

/-- C2: in every cycle, a tensor in the live set is never in the set handed
to the evictor, and every tensor handed to the evictor is in the cached set
but not in the live set. -/
theorem no_premature_eviction (s : Step) (kad : KAD) :
    (∀ t, t ∈ liveSet s → t ∉ (cycle s kad).expired) ∧
    (∀ t, t ∈ (cycle s kad).expired → t ∈ s.mem ∧ t ∉ liveSet s) := by
  have hsub : ∀ t, t ∈ (cycle s kad).expired → t ∈ s.mem ∧ t ∉ liveSet s := by
    intro t ht
    rw [cycle_expired] at ht
    have hst : t ∈ staleSet s :=
      mem_expired_subset s.now s.G (staleSet s) kad t ht
    have hm := List.mem_filter.mp hst
    refine ⟨hm.1, ?_⟩
    simpa using hm.2
  exact ⟨fun t hl he => (hsub t he).2 hl, hsub⟩

/-- C2 witness: in Scenario A, tensor `a` is live and is not handed to the
evictor. -/
theorem no_premature_eviction_witness :
    "a".toList ∉ (cycle stepA []).expired :=
  (no_premature_eviction stepA []).1 ("a".toList) (by decide)

/-- C3: a tensor with no keep-alive entry yet is not evicted in the cycle
that first observes it unused — its entry is only created then, with the
current time — and a tensor handed to the evictor always has an entry whose
timestamp plus the grace period is at most the current time. -/
theorem grace_period_lower_bound (s : Step) (kad : KAD) (t : Str)
    (hnd : s.mem.Nodup) :
    (kadLookup kad t = none →
      t ∉ (cycle s kad).expired ∧
      (t ∈ staleSet s → kadLookup (cycle s kad).kad t = some s.now)) ∧
    (t ∈ (cycle s kad).expired →
      ∃ ts, kadLookup kad t = some ts ∧ ts + s.G ≤ s.now) := by
  have hndf : (staleSet s).Nodup := hnd.filter _
  have hsound : t ∈ (cycle s kad).expired →
      ∃ ts, kadLookup kad t = some ts ∧ ts + s.G ≤ s.now := by
    intro h
    rw [cycle_expired] at h
    exact mem_expired_sound s.now s.G (staleSet s) kad t hndf h
  refine ⟨?_, hsound⟩
  intro hnone
  constructor
  · intro he
    rcases hsound he with ⟨ts, hts, -⟩
    rw [hnone] at hts
    exact Option.noConfusion hts
  · intro hst
    rw [cycle_kad, kadLookup_expired_new s.now s.G (staleSet s) kad t hnone,
      if_pos hst]

/-- C3 witness: in Scenario A, tensor `c` is first observed unused, is not
evicted that cycle, and is registered at time 0. -/
theorem grace_period_lower_bound_witness :
    "c".toList ∉ (cycle stepA []).expired ∧
    kadLookup (cycle stepA []).kad ("c".toList) = some 0 := by
  have h := (grace_period_lower_bound stepA [] ("c".toList) (by decide)).1 rfl
  exact ⟨h.1, h.2 (by decide)⟩

/-- C6: evicting a tensor whose cache file is absent is a no-op success: the
filesystem is unchanged and no events (in particular no lock interaction)
are emitted. -/
theorem idempotent_re_eviction (fs : FS) (t : Str) (h : t ∉ fs.mem) :
    evictOne fs t = (fs, []) := by
  have hc : ¬(t ∈ fs.lock ∧ t ∈ fs.mem) := fun hc => h hc.2
  simp [evictOne, hc]

/-- C6 witness: evicting `a` when only its lock file exists does nothing. -/
theorem idempotent_re_eviction_witness :
    evictOne fsLockOnly ("a".toList) = (fsLockOnly, []) :=
  idempotent_re_eviction fsLockOnly ("a".toList) (by decide)

/-- C5: a tensor handed to the evictor whose lock artifact is missing is not
deleted that cycle, keeps its keep-alive entry unchanged, and is handed to
the evictor again on any later cycle in which it is still cached and not
live. -/
theorem fail_safe_deletion (s : Step) (kad : KAD) (t : Str)
    (hnd : s.mem.Nodup) (hexp : t ∈ (cycle s kad).expired)
    (hlock : t ∉ s.lock) :
    t ∈ (cycle s kad).memAfter ∧
    kadLookup (cycle s kad).kad t = kadLookup kad t ∧
    ∀ s₂ : Step, s₂.G = s.G → s.now ≤ s₂.now → t ∈ s₂.mem →
      t ∉ liveSet s₂ → t ∈ (cycle s₂ (cycle s kad).kad).expired := by
  have hndf : (staleSet s).Nodup := hnd.filter _
  rw [cycle_expired] at hexp
  have hst : t ∈ staleSet s :=
    mem_expired_subset s.now s.G (staleSet s) kad t hexp
  have hm : t ∈ s.mem := (List.mem_filter.mp hst).1
  rcases mem_expired_sound s.now s.G (staleSet s) kad t hndf hexp with
    ⟨ts, hts, hle⟩
  have hpres : kadLookup (cycle s kad).kad t = some ts := by
    rw [cycle_kad]
    exact kadLookup_expired_preserved s.now s.G (staleSet s) kad t ts hts
  refine ⟨?_, by rw [hpres, hts], ?_⟩
  · rw [cycle_memAfter]
    exact delete_tensors_mem_of_no_lock ⟨s.lock, s.mem⟩ _ t hlock hm
  · intro s₂ hG hnow hm₂ hlive₂
    rw [cycle_expired]
    refine mem_expired_complete s₂.now s₂.G (staleSet s₂) _ t ts ?_ hpres ?_
    · exact List.mem_filter.mpr ⟨hm₂, by simp [hlive₂]⟩
    · rw [hG]
      exact le_trans hle hnow

/-- C5 witness: tensor `a` is expired in `stepB` but has no lock artifact;
its cache file survives, its entry is unchanged, and it is handed to the
evictor again in `stepB2`. -/
theorem fail_safe_deletion_witness :
    "a".toList ∈ (cycle stepB kadB).memAfter ∧
    kadLookup (cycle stepB kadB).kad ("a".toList) =
      kadLookup kadB ("a".toList) ∧
    "a".toList ∈ (cycle stepB2 (cycle stepB kadB).kad).expired := by
  have h := fail_safe_deletion stepB kadB ("a".toList) (by decide) (by decide)
    (by decide)
  exact ⟨h.1, h.2.1, h.2.2 stepB2 rfl (by decide) (by decide) (by decide)⟩

/-- C7: in the evictor's event trace, every deletion of a cache file is
immediately preceded by the exclusive-lock acquisition on the same tensor's
lock artifact and immediately followed by its release, so no file is ever
unlinked outside the exclusive-lock critical section. -/
theorem lock_discipline (fs : FS) (ts : List Str) (i : Nat) (t : Str)
    (h : ((delete_tensors fs ts).2)[i]? = some (Ev.removeMem t)) :
    1 ≤ i ∧
    ((delete_tensors fs ts).2)[i - 1]? = some (Ev.lockEx t) ∧
    ((delete_tensors fs ts).2)[i + 1]? = some (Ev.unlock t) := by
  induction ts generalizing fs i with
  | nil =>
    simp [delete_tensors] at h
  | cons u us ih =>
    by_cases hc : u ∈ fs.lock ∧ u ∈ fs.mem
    · have ht : (delete_tensors fs (u :: us)).2 =
          Ev.openLock u :: Ev.lockEx u :: Ev.removeMem u :: Ev.unlock u ::
            (delete_tensors ⟨fs.lock, fs.mem.erase u⟩ us).2 := by
        simp [delete_tensors, evictOne, hc]
      rw [ht] at h ⊢
      rcases i with - | - | - | - | n
      · simp at h
      · simp at h
      · have hut : u = t := by simpa using h
        subst hut
        refine ⟨by omega, by simp, by simp⟩
      · simp at h
      · simp only [List.getElem?_cons_succ] at h
        obtain ⟨h1, h2, h3⟩ := ih ⟨fs.lock, fs.mem.erase u⟩ n h
        obtain ⟨j, rfl⟩ : ∃ j, n = j + 1 := ⟨n - 1, by omega⟩
        have e1 : j + 1 + 4 - 1 = j + 4 := by omega
        have e2 : j + 1 + 4 + 1 = j + 6 := by omega
        refine ⟨by omega, ?_, ?_⟩
        · rw [e1]
          simp only [List.getElem?_cons_succ]
          simpa using h2
        · rw [e2]
          simp only [List.getElem?_cons_succ]
          simpa using h3
    · have ht : (delete_tensors fs (u :: us)).2 =
          (delete_tensors fs us).2 := by
        simp [delete_tensors, evictOne, hc]
      rw [ht] at h ⊢
      exact ih fs i h

/-- C7 witness: deleting tensor `a` with both files present produces the
four-event trace with the removal at index 2, between the acquisition and
the release. -/
theorem lock_discipline_witness :
    1 ≤ 2 ∧
    ((delete_tensors fsW [ "a".toList ]).2)[2 - 1]? =
      some (Ev.lockEx ("a".toList)) ∧
    ((delete_tensors fsW [ "a".toList ]).2)[2 + 1]? =
      some (Ev.unlock ("a".toList)) :=
  lock_discipline fsW [ "a".toList ] 2 ("a".toList) (by decide)

/-- C9: a model is running iff its identity is a substring of some running
workload; the live set is the union of the tensor sets of the running
models; and in Scenario A the live set is `a, b` and the stale set is
`c, d`. -/
theorem live_set_computation :
    (∀ model pods, is_running model pods = true ↔
      ∃ p, p ∈ pods ∧ ∃ pre post, p = pre ++ model ++ post) ∧
    (∀ models pods t, t ∈ runningTensorSet models pods ↔
      ∃ m, m ∈ models ∧ is_running m.1 pods = true ∧ t ∈ m.2) ∧
    liveSet stepA = [ "a".toList, "b".toList ] ∧
    staleSet stepA = [ "c".toList, "d".toList ] := by
  refine ⟨?_, fun models pods t => mem_runningTensorSet t models pods,
    by decide, by decide⟩
  intro model pods
  simp only [is_running, List.any_eq_true, strIn_iff]

/-- C9 witness: model `m1` is running under workload `pod-m1-xyz`, so the
substring decomposition exists. -/
theorem live_set_computation_witness :
    ∃ p, p ∈ [ "pod-m1-xyz".toList ] ∧
      ∃ pre post, p = pre ++ "m1".toList ++ post :=
  (live_set_computation.1 ("m1".toList) [ "pod-m1-xyz".toList ]).mp
    (by decide)

/-- C10: the keep-alive registry is insert-only: an existing entry survives
any sequence of cycles with its timestamp unchanged, and a cycle maps a
previously untracked tensor to the current time exactly when it is stale,
leaving it untracked otherwise. -/
theorem keep_alive_insert_only (t : Str) :
    (∀ (steps : List Step) (kad : KAD) (ts : Nat),
      kadLookup kad t = some ts →
      kadLookup (runCycles steps kad) t = some ts) ∧
    (∀ (s : Step) (kad : KAD), kadLookup kad t = none →
      kadLookup (cycle s kad).kad t =
        if t ∈ staleSet s then some s.now else none) := by
  constructor
  · intro steps
    induction steps with
    | nil =>
      intro kad ts h
      simpa [runCycles] using h
    | cons s ss ih =>
      intro kad ts h
      simp only [runCycles]
      refine ih (cycle s kad).kad ts ?_
      rw [cycle_kad]
      exact kadLookup_expired_preserved s.now s.G (staleSet s) kad t ts h
  · intro s kad h
    rw [cycle_kad]
    exact kadLookup_expired_new s.now s.G (staleSet s) kad t h

/-- C10 witness: the entry for `a` survives the cycle that deletes `a` from
the cache, and the untracked stale tensor `c` of Scenario A is registered
at the cycle's current time. -/
theorem keep_alive_insert_only_witness :
    kadLookup (runCycles [ stepC4 ] kadC4) ("a".toList) = some 0 ∧
    kadLookup (cycle stepA []).kad ("c".toList) =
      if "c".toList ∈ staleSet stepA then some stepA.now else none :=
  ⟨(keep_alive_insert_only ("a".toList)).1 [ stepC4 ] kadC4 0 (by decide),
    (keep_alive_insert_only ("c".toList)).2 stepA [] (by decide)⟩

/-- C1 counterexample: in `stepC1` tensor `a` is cached and live again, yet
the cycle does not remove its keep-alive entry: the entry is still mapped
to timestamp 0 afterwards, not cleared. -/
theorem demand_reset_counterexample :
    "a".toList ∈ stepC1.mem ∧
    "a".toList ∈ liveSet stepC1 ∧
    kadLookup kadC1 ("a".toList) = some 0 ∧
    kadLookup (cycle stepC1 kadC1).kad ("a".toList) = some 0 :=
  ⟨by decide, by decide, by decide, by decide⟩

/-- C1 amended: a tracked tensor that reappears in the live set keeps its
keep-alive entry unchanged — the cycle never removes it, so a later absence
of demand continues from the original timestamp rather than restarting the
grace window. -/
theorem demand_reset_amended (s : Step) (kad : KAD) (t : Str)
    (h : t ∈ liveSet s) :
    kadLookup (cycle s kad).kad t = kadLookup kad t := by
  rw [cycle_kad]
  refine kadLookup_expired_not_mem s.now s.G (staleSet s) kad t ?_
  intro hst
  have hf := (List.mem_filter.mp hst).2
  simp [h] at hf

/-- C1 amended witness: the live tensor `a` of `stepC1` keeps its entry
unchanged. -/
theorem demand_reset_amended_witness :
    kadLookup (cycle stepC1 kadC1).kad ("a".toList) =
      kadLookup kadC1 ("a".toList) :=
  demand_reset_amended stepC1 kadC1 ("a".toList) (by decide)

/-- C4 counterexample: in `stepC4` tensor `a` is handed to the evictor and
successfully deleted, yet its registry entry survives; and in `stepPr` the
entry for `b`, which is no longer cached at all, is not pruned. -/
theorem registry_lifetime_counterexample :
    (cycle stepC4 kadC4).expired = [ "a".toList ] ∧
    (cycle stepC4 kadC4).memAfter = [] ∧
    kadLookup (cycle stepC4 kadC4).kad ("a".toList) = some 0 ∧
    "b".toList ∉ stepPr.mem ∧
    kadLookup (cycle stepPr kadPr).kad ("b".toList) = some 0 :=
  ⟨by decide, by decide, by decide, by decide, by decide⟩

/-- C4 amended: no keep-alive entry is ever removed: an existing entry
survives the cycle with its timestamp intact, whether its tensor was
successfully deleted by the evictor or is no longer cached at all. -/
theorem registry_lifetime_amended (s : Step) (kad : KAD) (t : Str) (ts : Nat)
    (h : kadLookup kad t = some ts) :
    kadLookup (cycle s kad).kad t = some ts := by
  rw [cycle_kad]
  exact kadLookup_expired_preserved s.now s.G (staleSet s) kad t ts h

/-- C4 amended witness: the entry of the deleted tensor `a` survives the
cycle. -/
theorem registry_lifetime_amended_witness :
    kadLookup (cycle stepC4 kadC4).kad ("a".toList) = some 0 :=
  registry_lifetime_amended stepC4 kadC4 ("a".toList) 0 (by decide)

/-- C8 counterexample: a cycle whose cache-directory listing raises makes
the loop terminate with the error instead of proceeding on an empty
snapshot, and an I/O error while removing tensor `a` aborts the whole
eviction pass, `b` included. -/
theorem error_containment_counterexample :
    runCyclesE [ stepC8 ] [] = Except.error () ∧
    delete_tensorsE badW fsW2 listW = Except.error () :=
  ⟨rfl, rfl⟩

/-- C8 amended: per-cycle errors are not contained: a cache-directory read
error propagates and terminates the reconciliation loop rather than
yielding an empty snapshot, and an I/O error while evicting one tensor
aborts the processing of the remaining tensors of that cycle. -/
theorem error_containment_amended :
    (∀ (s : StepE) (ss : List StepE) (kad : KAD), s.memDir = none →
      runCyclesE (s :: ss) kad = Except.error ()) ∧
    (∀ (bad : List Str) (fs : FS) (t : Str) (rest : List Str),
      t ∈ fs.lock → t ∈ fs.mem → t ∈ bad →
      delete_tensorsE bad fs (t :: rest) = Except.error ()) := by
  constructor
  · intro s ss kad h
    simp [runCyclesE, cycleE, get_existing_tensors, h]
  · intro bad fs t rest h1 h2 h3
    simp [delete_tensorsE, h1, h2, h3]

/-- C8 amended witness: the erroring listing of `stepC8` terminates the
loop, and the failing removal of `a` aborts the pass over `a` and `b`. -/
theorem error_containment_amended_witness :
    runCyclesE [ stepC8 ] kadB = Except.error () ∧
    delete_tensorsE badW fsW2 listW = Except.error () :=
  ⟨error_containment_amended.1 stepC8 [] kadB rfl,
    error_containment_amended.2 badW fsW2 ("a".toList) [ "b".toList ]
      (by decide) (by decide) (by decide)⟩

end Tetris
